import Mathlib

/- Verification of the core of scrape_canarias_emails.py: email pattern
extraction (plain and obfuscated), endpoint scoring and candidate
ordering, DataTables-style pagination with fingerprint stall detection,
and listing-row parsing. Python strings are modeled as Lean Strings,
regular-expression operations as explicit character-level scanners with
the same leftmost/greedy semantics, and the network as a response
oracle indexed by fetch ordinal. -/

namespace Scraper

def BASE : String := "https://registrosfp.educacion.gob.es"

/-- Contiguous-substring occurrence on character lists. -/
def isSubL : List Char → List Char → Bool
  | needle, [] => needle.isEmpty
  | needle, hay@(_ :: rest) => needle.isPrefixOf hay || isSubL needle rest

/-- Python `needle in hay` on strings. -/
def containsSub (needle hay : String) : Bool :=
  isSubL needle.toList hay.toList

/-- Python `s.startswith(pre)`. -/
def strStarts (pre s : String) : Bool := pre.toList.isPrefixOf s.toList

/-- Python `s.endswith("&")`. -/
def endsWithAmp (s : String) : Bool := s.toList.getLast? == some '&'

/-- Python `.lower()` (ASCII range, as used on URLs here). -/
def lowerStr (s : String) : String := String.mk (s.toList.map Char.toLower)

/-- Python whitespace class (ASCII part of `\s` / `str.strip`). -/
def pySpace (c : Char) : Bool :=
  c == ' ' || c == '\t' || c == '\n' || c == '\r' || c == Char.ofNat 11 || c == Char.ofNat 12

/-- Python `str.strip()` on the character list. -/
def pyStripL (s : List Char) : List Char :=
  ((s.dropWhile pySpace).reverse.dropWhile pySpace).reverse

/-- Python `str.strip()`. -/
def pyStrip (s : String) : String := String.mk (pyStripL s.toList)

/-- Models `re.sub(r"\s+", " ", s)`: every maximal whitespace run becomes one space. -/
def collapseWsL : List Char → List Char
  | [] => []
  | [c] => if pySpace c then [' '] else [c]
  | c :: d :: rest =>
    if pySpace c && pySpace d then collapseWsL (d :: rest)
    else (if pySpace c then ' ' else c) :: collapseWsL (d :: rest)

/-- Models `re.sub(r"\s+", " ", s)` on strings. -/
def collapseWs (s : String) : String := String.mk (collapseWsL s.toList)

/-- Scan to the first `>` and return the remainder after it. -/
def tagScan : List Char → Option (List Char)
  | [] => none
  | c :: rest => if c == '>' then some rest else tagScan rest

/-- Match the tail of `<[^>]+>` right after a `<`: at least one
non-`>` character followed by `>`; returns the remainder. -/
def tagEnd : List Char → Option (List Char)
  | [] => none
  | c :: rest => if c == '>' then none else tagScan rest

/-- Models `re.sub(r"<[^>]+>", " ", s)`, a fuel-indexed scan (fuel covers the
whole input; each step consumes at least one character). -/
def stripTagsL : Nat → List Char → List Char
  | 0, s => s
  | _ + 1, [] => []
  | fuel + 1, c :: rest =>
    if c == '<' then
      match tagEnd rest with
      | some rest' => ' ' :: stripTagsL fuel rest'
      | none => '<' :: stripTagsL fuel rest
    else c :: stripTagsL fuel rest

/-- Models `re.sub(r"<[^>]+>", " ", s)` on strings. -/
def stripTags (s : String) : String := String.mk (stripTagsL (s.toList.length + 1) s.toList)

/-- Characters up to the first `"` provided a closing `"` exists. -/
def untilQuote : List Char → Option (List Char)
  | [] => none
  | c :: rest => if c == '\"' then some [] else (untilQuote rest).map (c :: ·)

/-- The capture of `([^"]+)"`: nonempty run of non-quote characters
closed by a quote. -/
def hrefCapture (s : List Char) : Option (List Char) :=
  match untilQuote s with
  | some cap => if cap.isEmpty then none else some cap
  | none => none

/-- Models `re.search(r'href="([^"]+)"', s)`: leftmost position where the
literal prefix and a nonempty closed capture both succeed. -/
def findHrefL : Nat → List Char → Option (List Char)
  | 0, _ => none
  | _ + 1, [] => none
  | fuel + 1, s =>
    if s.take 6 = "href=\"".toList then
      match hrefCapture (s.drop 6) with
      | some cap => some cap
      | none => findHrefL fuel s.tail
    else findHrefL fuel s.tail

/-- Models `re.search(r'href="([^"]+)"', s)`, returning group 1. -/
def findHref (s : String) : Option String :=
  (findHrefL (s.toList.length + 1) s.toList).map String.mk

/-- Octal digits, as classified by CPython's replacement-template
parser. -/
def isOctChar (c : Char) : Bool := '0' ≤ c && c ≤ '7'

/-- Expansion of the replacement template `rf"\1{value}"` against the
pattern `rf"({key}=)[^&]*"`, following CPython's `parse_template`:
after `\1`, a further digit extends the escape — two octal value
digits after the `1` form a three-digit octal character escape
(swallowing the group reference), while any other digit continuation
is a two-digit group reference 10-19, which the one-group pattern
lacks, so `re.sub` raises `re.error` (modeled as `none`). Only a
value that is empty or starts with a non-digit keeps the intended
group-1-then-literal reading. The group-1 text is always `key=`. -/
def subTemplate (key value : String) : Option String :=
  match value.toList with
  | [] => some (key ++ "=")
  | v0 :: rest0 =>
    if v0.isDigit then
      match rest0 with
      | v1 :: rest1 =>
        if isOctChar v0 && isOctChar v1 then
          some (String.mk (Char.ofNat (64 + 8 * (v0.toNat - 48) + (v1.toNat - 48)) :: rest1))
        else none
      | [] => none
    else some (key ++ "=" ++ value)

/-- Scanning pass of `re.sub(rf"({key}=)[^&]*", ...)`: every occurrence
of `key=` and its following run of non-`&` characters is replaced by
the already-expanded replacement `repl`, scanning left to right. -/
def subParamL (key repl : List Char) : Nat → List Char → List Char
  | 0, s => s
  | _ + 1, [] => []
  | fuel + 1, s@(c :: rest) =>
    if (key ++ ['=']).isPrefixOf s then
      repl ++ subParamL key repl fuel ((s.drop (key.length + 1)).dropWhile (· != '&'))
    else c :: subParamL key repl fuel rest

/-- Python `replace_param` (lines 49-53): append `key=value` when the
key is absent; otherwise run `re.sub` with the template `\1{value}`,
whose expansion for digit-leading values either raises `re.error`
(`none`) or collapses to an octal-escape character — it never produces
the intended `key=value`. -/
def replace_param (postdata key value : String) : Option String :=
  if ¬ containsSub (key ++ "=") postdata then
    let sep := if postdata = "" ∨ endsWithAmp postdata = true then "" else "&"
    some (postdata ++ sep ++ key ++ "=" ++ value)
  else
    match subTemplate key value with
    | none => none
    | some repl =>
      some (String.mk (subParamL key.toList repl.toList (postdata.toList.length + 1) postdata.toList))

/-- Digits of a decimal numeral to a Nat. -/
def digitsToNat (ds : List Char) : Nat := ds.foldl (fun n c => n * 10 + (c.toNat - 48)) 0

/-- Python `int(s)` for plain decimal strings: optional surrounding
whitespace, optional sign, then digits only; anything else raises
(modeled as `none`). -/
def pyIntOfStr (s : String) : Option Int :=
  match (pyStrip s).toList with
  | '-' :: ds => if ds ≠ [] ∧ ds.all Char.isDigit then some (-(Int.ofNat (digitsToNat ds))) else none
  | '+' :: ds => if ds ≠ [] ∧ ds.all Char.isDigit then some (Int.ofNat (digitsToNat ds)) else none
  | ds => if ds ≠ [] ∧ ds.all Char.isDigit then some (Int.ofNat (digitsToNat ds)) else none

/-- Value run `[^&]+` after a parameter name. -/
def takeParamVal (s : List Char) : List Char := s.takeWhile (· != '&')

/-- Models `re.search(r"(?:^|&)draw=([^&]+)", s)`: leftmost occurrence of
`draw=` at the start or right after a `&`, with a nonempty value run. -/
def drawScan : Nat → Bool → List Char → Option (List Char)
  | 0, _, _ => none
  | _ + 1, _, [] => none
  | fuel + 1, atStart, s@(c :: rest) =>
    if atStart && "draw=".toList.isPrefixOf s then
      let v := takeParamVal (s.drop 5)
      if v.isEmpty then drawScan fuel (c == '&') rest else some v
    else drawScan fuel (c == '&') rest

/-- Lines 219-226: parse the draw counter from the body template;
`int()` failure leaves it unset. -/
def parseDraw (post_template : String) : Option Int :=
  match drawScan (post_template.toList.length + 1) true post_template.toList with
  | none => none
  | some v => pyIntOfStr (String.mk v)

/-- Models `urllib.parse.urljoin(BASE, href)` for the reference shapes
arising here (BASE is scheme+host with empty path): absolute,
scheme-relative, root-relative and bare relative references. -/
def urljoinBase (href : String) : String :=
  if strStarts "http://" href = true ∨ strStarts "https://" href = true then href
  else if strStarts "//" href = true then "https:" ++ href
  else if strStarts "/" href = true then BASE ++ href
  else BASE ++ "/" ++ href

/-- Python `str.isdigit()` (ASCII digits). -/
def pyIsdigit (s : String) : Bool := !s.isEmpty && s.toList.all Char.isDigit

/-- A listing row: a JSON array of cells or a JSON object; cell and
field values are modeled as strings. -/
inductive RawRow
  | positional (cells : List String)
  | keyed (pairs : List (String × String))
deriving DecidableEq

/-- ASCII single quote, used by Python `str()` rendering of lists/dicts. -/
def squote : String := String.singleton (Char.ofNat 39)

/-- Python `str()` of a row value (modulo repr escaping, which no
claim exercises). -/
def rowStr : RawRow → String
  | .positional [] => "[]"
  | .positional cells =>
    "[" ++ String.intercalate ", " (cells.map (fun c => squote ++ c ++ squote)) ++ "]"
  | .keyed pairs =>
    "\x7b" ++ String.intercalate ", "
      (pairs.map (fun kv => squote ++ kv.1 ++ squote ++ ": " ++ squote ++ kv.2 ++ squote)) ++ "\x7d"

/-- Line 238: `str(r[0]) if isinstance(r, list) and r else str(r)`. -/
def rowKey : RawRow → String
  | .positional (c :: _) => c
  | r => rowStr r

/-- Lines 236-238: page fingerprint over the first 10 rows; the Python
`hash()` of the joined key string is modeled by the joined string
itself (an injective stand-in). -/
def fingerprint (rows : List RawRow) : String :=
  String.intercalate "|" ((rows.take 10).map rowKey)

/-- A JSON object payload, restricted to the fields the code reads.
`none` models the key being absent (or bound to a value of the wrong
shape, which the code treats the same way). -/
structure DictPayload where
  data : Option (List RawRow)
  items : Option (List RawRow)
  results : Option (List RawRow)
  content : Option (List RawRow)
  recordsFiltered : Option Nat
  recordsTotal : Option Nat
deriving DecidableEq

/-- A parsed JSON response body: object, bare array, or anything else. -/
inductive Payload
  | dict (d : DictPayload)
  | arr (rows : List RawRow)
  | other
deriving DecidableEq

/-- Lines 60-69: `rows_from_payload`. -/
def rows_from_payload : Payload → List RawRow
  | .dict d =>
    match d.data with
    | some l => l
    | none =>
      match d.items with
      | some l => l
      | none =>
        match d.results with
        | some l => l
        | none =>
          match d.content with
          | some l => l
          | none => []
  | .arr rows => rows
  | .other => []

/-- Python `a.get("recordsFiltered") or a.get("recordsTotal")`: the
first operand wins iff it is truthy (present and nonzero). -/
def firstTruthyTotal (rf rt : Option Nat) : Option Nat :=
  match rf with
  | some n => if n ≠ 0 then some n else rt
  | none => rt

/-- Total extraction from a payload (lines 209-210 and 277-278):
only dict payloads carry a total. -/
def totalOf : Payload → Option Nat
  | .dict d => firstTruthyTotal d.recordsFiltered d.recordsTotal
  | _ => none

/-- One output record of `parse_centers`. -/
structure CenterRecord where
  codigo : String
  nombre : String
  ficha_url : String
deriving DecidableEq

/-- Loop body of `parse_centers` (lines 299-325) for one row. -/
def parseOneCenter (row : RawRow) : Option CenterRecord :=
  let triple :=
    match row with
    | .positional cells =>
      if cells.length ≥ 2 then
        let raw0 := cells[0]!
        let raw1 := cells[1]!
        let codigo := pyStrip (stripTags raw0)
        let nombre := pyStrip (stripTags raw1)
        let ficha_url :=
          match findHref raw0 with
          | some h => urljoinBase h
          | none =>
            match findHref (cells.getLast!) with
            | some h2 => urljoinBase h2
            | none => ""
        (codigo, nombre, ficha_url)
      else ("", "", "")
    | .keyed _ => ("", "", "")
  let codigo := pyStrip (collapseWs triple.1)
  let nombre := pyStrip (collapseWs triple.2.1)
  let ficha_url := triple.2.2
  if codigo ≠ "" ∧ nombre ≠ "" then
    let ficha_url :=
      if ficha_url = "" ∧ pyIsdigit codigo then
        BASE ++ "/registroestatalentidadesformacion/centro/" ++ codigo
      else ficha_url
    some ⟨codigo, nombre, ficha_url⟩
  else none

/-- Lines 294-327: `parse_centers`. -/
def parse_centers (rows : List RawRow) : List CenterRecord :=
  rows.filterMap parseOneCenter

/-! ### Regular-expression engine for the two email patterns

Both patterns are plain sequences of atoms (character classes with a
quantifier, possibly capturing, or alternations of literal words), so
a backtracking matcher over an atom sequence reproduces Python's
leftmost-then-greedy semantics exactly: alternatives for each atom are
enumerated in the engine's preference order (greedy quantifiers
longest-first, alternation left-first), and concatenation explores the
leftmost atom's preferences outermost. -/

/-- Quantifier of a character-class atom. -/
inductive Quant
  | one
  | opt
  | star
  | plus
  | twoPlus
deriving DecidableEq

/-- One pattern atom. -/
inductive Piece
  | charCls (cls : Char → Bool) (q : Quant) (grp : Option Nat)
  | lits (alts : List (List Char))

/-- Case-insensitive literal prefix test (the IGNORECASE flag; the
alternative words are given lowercase). -/
def ciPrefix (lit : List Char) (s : List Char) : Bool :=
  (s.take lit.length).map Char.toLower = lit

/-- Consumption alternatives of one atom on input `s`, in the
backtracking engine's preference order: each is the consumed prefix
with its captures, paired with the remaining input. -/
def pieceAlts : Piece → List Char → List ((List Char × List (Nat × List Char)) × List Char)
  | .charCls cls q grp, s =>
    let run := s.takeWhile cls
    let lens : List Nat :=
      match q with
      | .one => if run.length ≥ 1 then [1] else []
      | .opt => if run.length ≥ 1 then [1, 0] else [0]
      | .star => (List.range (run.length + 1)).reverse
      | .plus => ((List.range (run.length + 1)).reverse).filter (· ≥ 1)
      | .twoPlus => ((List.range (run.length + 1)).reverse).filter (· ≥ 2)
    lens.map fun n =>
      ((s.take n, match grp with | some g => [(g, s.take n)] | none => []), s.drop n)
  | .lits alts, s =>
    (alts.filter (fun lit => ciPrefix lit s)).map fun lit =>
      ((s.take lit.length, []), s.drop lit.length)

/-- All matches of an atom sequence at the start of `s`, in preference
order: consumed prefix plus collected captures. -/
def matchPieces : List Piece → List Char → List (List Char × List (Nat × List Char))
  | [], _ => [([], [])]
  | p :: ps, s =>
    (pieceAlts p s).flatMap fun alt =>
      (matchPieces ps alt.2).map fun m => (alt.1.1 ++ m.1, alt.1.2 ++ m.2)

/-- The `re.search`-style scan: first position with a match, returning the
engine's preferred match there and the input remaining after it. -/
def firstMatch (ps : List Piece) : List Char → Option ((List Char × List (Nat × List Char)) × List Char)
  | [] =>
    match matchPieces ps [] with
    | m :: _ => some (m, [])
    | [] => none
  | s@(_ :: rest) =>
    match matchPieces ps s with
    | m :: _ => some (m, s.drop m.1.length)
    | [] => firstMatch ps rest

/-- Models `re.finditer`: non-overlapping matches left to right (fuel covers
the input; neither pattern can match the empty string). -/
def finditerL (ps : List Piece) : Nat → List Char → List (List Char × List (Nat × List Char))
  | 0, _ => []
  | fuel + 1, s =>
    match firstMatch ps s with
    | none => []
    | some (m, rest) => m :: finditerL ps fuel rest

/-- All matches of a pattern in a string. -/
def finditer (ps : List Piece) (s : String) : List (List Char × List (Nat × List Char)) :=
  finditerL ps (s.toList.length + 1) s.toList

/-- The class `[a-zA-Z0-9._%+\-]`. -/
def localChar (c : Char) : Bool :=
  c.isAlpha || c.isDigit || c == '.' || c == '_' || c == '%' || c == '+' || c == '-'

/-- The class `[a-zA-Z0-9.\-]`. -/
def domainChar (c : Char) : Bool := c.isAlpha || c.isDigit || c == '.' || c == '-'

/-- The class `[a-zA-Z]`. -/
def alphaChar (c : Char) : Bool := c.isAlpha

/-- The class `(?:\(|\[)`. -/
def openBr (c : Char) : Bool := c == '(' || c == '['

/-- The class `(?:\)|\])`. -/
def closeBr (c : Char) : Bool := c == ')' || c == ']'

/-- Line 18: `EMAIL_RE`. -/
def emailPieces : List Piece :=
  [ .charCls localChar .plus none,
    .charCls (· == '@') .one none,
    .charCls domainChar .plus none,
    .charCls (· == '.') .one none,
    .charCls alphaChar .twoPlus none ]

/-- Lines 19-22: `OBFUSCATED_RE` (groups 1-3). -/
def obfuscatedPieces : List Piece :=
  [ .charCls localChar .plus (some 1),
    .charCls pySpace .star none,
    .charCls openBr .opt none,
    .charCls pySpace .star none,
    .lits ["at".toList, "arroba".toList],
    .charCls pySpace .star none,
    .charCls closeBr .opt none,
    .charCls pySpace .star none,
    .charCls domainChar .plus (some 2),
    .charCls pySpace .star none,
    .charCls openBr .opt none,
    .charCls pySpace .star none,
    .lits ["dot".toList, "punto".toList],
    .charCls pySpace .star none,
    .charCls closeBr .opt none,
    .charCls pySpace .star none,
    .charCls alphaChar .twoPlus (some 3) ]

/-- Captured group text within one match. -/
def grpOf (caps : List (Nat × List Char)) (g : Nat) : String :=
  match caps.find? (fun kv => kv.1 == g) with
  | some kv => String.mk kv.2
  | none => ""

/-- The `m.group(0)` strings of all `EMAIL_RE` matches. -/
def emailMatches (text : String) : List String :=
  (finditer emailPieces text).map fun m => String.mk m.1

/-- The reconstructed `g1@g2.g3` strings of all `OBFUSCATED_RE` matches. -/
def obfuscatedMatches (text : String) : List String :=
  (finditer obfuscatedPieces text).map fun m =>
    grpOf m.2 1 ++ "@" ++ grpOf m.2 2 ++ "." ++ grpOf m.2 3

/-- Lines 38-46: `extract_emails`; the Python set is modeled as the
list of found candidates (membership is the observable). -/
def extract_emails (text : String) : List String :=
  if text = "" then []
  else emailMatches text ++ obfuscatedMatches text

/-! ### Endpoint scoring and candidate ordering -/

/-- One captured request, restricted to the fields `score` reads. -/
structure CapturedReq where
  url : String
  method : String
  post_data : String
deriving DecidableEq

/-- Lines 131-145: the candidate scoring function. -/
def score (req : CapturedReq) : Nat :=
  let u := lowerStr req.url
  (if containsSub "registrosfp.educacion.gob.es" u then 3 else 0)
  + (if containsSub "registroestatalentidadesformacion" u then 2 else 0)
  + (if containsSub "buscar" u || containsSub "publico" u || containsSub "datatable" u
        || containsSub "list" u || containsSub "centro" u then 2 else 0)
  + (if req.method = "POST" then 1 else 0)
  + (if containsSub "draw=" req.post_data || containsSub "start=" req.post_data
        || containsSub "length=" req.post_data then 3 else 0)

/-- Line 147: `sorted(captured, key=score, reverse=True)`; Python's
sort is stable, which insertion sort with the non-strict descending
comparison reproduces exactly. -/
def candidatesSorted (captured : List CapturedReq) : List CapturedReq :=
  captured.insertionSort (fun a b => score b ≤ score a)

/-! ### Final email choice of the detail extractor -/

/-- Line 385: `sorted(emails)[0] if emails else ""`; the candidate set
is modeled as a list of candidates. -/
def select_email (emails : List String) : String :=
  match emails.insertionSort (· ≤ ·) with
  | [] => ""
  | e :: _ => e

/-! ### Pagination (`fetch_all_centers`, lines 189-291)

The network collaborator is a response oracle indexed by fetch
ordinal: the i-th `page.request.fetch` of the loop returns `backend i`.
The postdata actually sent on each fetch is computed as in the source
and recorded in the outcome. -/

/-- Result of one replayed request, as the code case-splits on it. -/
inductive FetchResult
  | notOk
  | badBody
  | ok (obj : Payload)
deriving DecidableEq

/-- Which of the code's exits ended pagination. -/
inductive StopReason
  | notDT
  | httpError
  | parseError
  | noRows
  | stall
  | totalReached
deriving DecidableEq

/-- Return value plus the run's observables. -/
structure FetchOutcome where
  rows : List RawRow
  reason : StopReason
  sent : List String
  total : Option Nat
deriving DecidableEq

/-- Mutable state of the pagination loop. -/
structure LoopState where
  start : Nat
  page_size_real : Nat
  draw : Option Int
  all_rows : List RawRow
  seen : List String
  total : Option Nat
  sent : List String
deriving DecidableEq

/-- Models `total is not None and len(all_rows) >= int(total)`. -/
def totalHit : Option Nat → Nat → Bool
  | some t, n => n ≥ t
  | none, _ => false

/-- Request template fields used by `fetch_all_centers`. -/
structure ReqTemplate where
  url : String
  method : String
  post_data : String
deriving DecidableEq

/-- Lines 250-252: the draw counter increments when present. -/
def nextDraw : Option Int → Option Int
  | some d => some (d + 1)
  | none => none

/-- Lines 246-252: the postdata sent on a fetch: the template with
start and length rewritten, and draw rewritten when present; `none`
when one of the `replace_param` calls raises `re.error`, which
propagates out of `fetch_all_centers` uncaught. -/
def nextPd (tpl : String) (start' : Nat) (draw : Option Int) : Option String :=
  match replace_param tpl "start" (toString start') with
  | none => none
  | some pd1 =>
    match replace_param pd1 "length" "500" with
    | none => none
    | some pd2 =>
      match draw with
      | some d => replace_param pd2 "draw" (toString (d + 1))
      | none => some pd2

/-- Lines 277-278: the declared total is only updated while unknown. -/
def nextTotal (total : Option Nat) (obj : Payload) : Option Nat :=
  match total with
  | none => totalOf obj
  | some t => some t

/-- How a call of `fetch_all_centers` ends: a normal return, or an
uncaught `re.error` escaping from `replace_param` (no row list is
returned then). -/
inductive RunResult
  | ok (o : FetchOutcome)
  | err
deriving DecidableEq

/-- Lines 243-287: the `while True` pagination loop. `fuel` only bounds
the number of iterations of the model; `none` means it was exhausted
before the code would have stopped. A failing body rewrite (lines
246-252) aborts the whole call with the exception, modeled `.err`. -/
def fetchLoop (backend : Nat → FetchResult) (tpl : String) :
    Nat → Nat → LoopState → Option RunResult
  | 0, _, _ => none
  | fuel + 1, idx, st =>
    match nextPd tpl (st.start + st.page_size_real) st.draw with
    | none => some .err
    | some pd =>
      match backend idx with
      | .notOk => some (.ok ⟨st.all_rows, .httpError, st.sent ++ [pd], st.total⟩)
      | .badBody => some (.ok ⟨st.all_rows, .parseError, st.sent ++ [pd], st.total⟩)
      | .ok obj =>
        if rows_from_payload obj = [] then
          some (.ok ⟨st.all_rows, .noRows, st.sent ++ [pd], st.total⟩)
        else if fingerprint (rows_from_payload obj) ∈ st.seen then
          some (.ok ⟨st.all_rows, .stall, st.sent ++ [pd], st.total⟩)
        else if totalHit (nextTotal st.total obj) (st.all_rows ++ rows_from_payload obj).length then
          some (.ok ⟨st.all_rows ++ rows_from_payload obj, .totalReached, st.sent ++ [pd],
            nextTotal st.total obj⟩)
        else
          fetchLoop backend tpl fuel (idx + 1)
            ⟨st.start + st.page_size_real, Nat.max 1 (rows_from_payload obj).length,
              nextDraw st.draw, st.all_rows ++ rows_from_payload obj,
              fingerprint (rows_from_payload obj) :: st.seen, nextTotal st.total obj,
              st.sent ++ [pd]⟩

/-- Lines 189-291: `fetch_all_centers`. -/
def fetch_all_centers (backend : Nat → FetchResult) (tpl : ReqTemplate)
    (first_payload : Payload) (fuel : Nat) : Option RunResult :=
  let post_template := tpl.post_data
  let all_rows := rows_from_payload first_payload
  let total := totalOf first_payload
  let page_size_real := Nat.max 1 (rows_from_payload first_payload).length
  let draw := parseDraw post_template
  let is_dt := (containsSub "start=" post_template || containsSub "length=" post_template
      || containsSub "draw=" post_template) && tpl.method == "POST"
  if !is_dt then some (.ok ⟨all_rows, .notDT, [], total⟩)
  else
    fetchLoop backend post_template fuel 0
      ⟨0, page_size_real, draw, all_rows, [fingerprint all_rows], total, []⟩

/-! ## Theorems -/

/-- C5: the plain pattern matches the example address whole; both
obfuscated example forms are reconstructed as foo@example.com; and an
input in which neither pattern finds a match yields no email. -/
theorem c5_email_matching :
    emailMatches "foo.bar+x@sub.example.co" = ["foo.bar+x@sub.example.co"]
    ∧ extract_emails "foo (at) example (dot) com" = ["foo@example.com"]
    ∧ extract_emails "foo arroba example punto com" = ["foo@example.com"]
    ∧ ∀ s : String, emailMatches s = [] → obfuscatedMatches s = [] → extract_emails s = [] := by
  refine ⟨by decide, by decide, by decide, ?_⟩
  intro s h1 h2
  unfold extract_emails
  split
  · rfl
  · rw [h1, h2]; rfl

/-- C5 witness: a concrete input with no email-like substring. -/
theorem c5_email_matching_witness : extract_emails "hello world" = [] :=
  c5_email_matching.2.2.2 "hello world" (by decide) (by decide)

/-- C6: on a nonempty candidate list the chosen email is a candidate
that is lexicographically least (hence determined by the candidate set
alone); on the empty candidate list it is the empty string. -/
theorem c6_select_email (emails : List String) :
    (emails ≠ [] →
      select_email emails ∈ emails ∧ ∀ x ∈ emails, select_email emails ≤ x)
    ∧ (emails = [] → select_email emails = "") := by
  constructor
  · intro hne
    have hperm := List.perm_insertionSort (α := String) (· ≤ ·) emails
    have hsorted := List.sorted_insertionSort (α := String) (· ≤ ·) emails
    match hL : emails.insertionSort (· ≤ ·) with
    | [] =>
      exact absurd (hperm.symm.trans (hL ▸ List.Perm.refl _)).symm.nil_eq (fun h => hne h.symm)
    | e :: rest =>
      rw [hL] at hperm hsorted
      have hsel : select_email emails = e := by unfold select_email; rw [hL]
      rw [hsel]
      constructor
      · exact hperm.mem_iff.mp (by simp)
      · intro x hx
        have hx' : x ∈ e :: rest := hperm.mem_iff.mpr hx
        rcases List.mem_cons.mp hx' with h | h
        · exact h ▸ le_refl e
        · exact (List.sorted_cons.mp hsorted).1 x h
  · intro h
    subst h
    rfl

/-- C6 witness: a concrete nonempty candidate list. -/
theorem c6_select_email_witness : select_email ["zz@b.com", "aa@b.com"] ∈ ["zz@b.com", "aa@b.com"] :=
  ((c6_select_email ["zz@b.com", "aa@b.com"]).1 (by decide)).1

/-- C7: a POST request whose lowered URL contains the target host and
whose body contains a pagination parameter scores strictly above a GET
request whose lowered URL contains none of the scored substrings and
whose body contains no pagination parameter. -/
theorem c7_score_separation (p g : CapturedReq)
    (hpm : p.method = "POST")
    (hph : containsSub "registrosfp.educacion.gob.es" (lowerStr p.url) = true)
    (hpp : containsSub "draw=" p.post_data = true ∨ containsSub "start=" p.post_data = true
      ∨ containsSub "length=" p.post_data = true)
    (hgm : g.method = "GET")
    (hg1 : containsSub "registrosfp.educacion.gob.es" (lowerStr g.url) = false)
    (hg2 : containsSub "registroestatalentidadesformacion" (lowerStr g.url) = false)
    (hg3 : containsSub "buscar" (lowerStr g.url) = false)
    (hg4 : containsSub "publico" (lowerStr g.url) = false)
    (hg5 : containsSub "datatable" (lowerStr g.url) = false)
    (hg6 : containsSub "list" (lowerStr g.url) = false)
    (hg7 : containsSub "centro" (lowerStr g.url) = false)
    (hg8 : containsSub "draw=" g.post_data = false)
    (hg9 : containsSub "start=" g.post_data = false)
    (hg10 : containsSub "length=" g.post_data = false) :
    score g < score p := by
  have hgp : ¬ (g.method = "POST") := by rw [hgm]; decide
  have hg : score g = 0 := by
    simp [score, hg1, hg2, hg3, hg4, hg5, hg6, hg7, hg8, hg9, hg10, hgp]
  have hp5 : (containsSub "draw=" p.post_data || containsSub "start=" p.post_data
      || containsSub "length=" p.post_data) = true := by
    rcases hpp with h | h | h <;> simp [h]
  have hp : 7 ≤ score p := by
    simp only [score, hph, hp5, hpm, if_true, if_pos rfl]
    split <;> split <;> omega
  omega

/-- C7 witness: a concrete matching POST and a concrete unrelated GET. -/
theorem c7_score_separation_witness :
    score ⟨"https://other.example.net/q", "GET", ""⟩
      < score ⟨"https://registrosfp.educacion.gob.es/x", "POST", "start=0&length=10"⟩ :=
  c7_score_separation
    ⟨"https://registrosfp.educacion.gob.es/x", "POST", "start=0&length=10"⟩
    ⟨"https://other.example.net/q", "GET", ""⟩
    rfl (by decide) (Or.inr (Or.inl (by decide))) rfl
    (by decide) (by decide) (by decide) (by decide) (by decide)
    (by decide) (by decide) (by decide) (by decide) (by decide)

/-- C1 counterexample: two rows cleaning to the same non-empty code
both appear in the output of parse_centers; no deduplication happens. -/
theorem c1_counterexample :
    parse_centers [.positional ["1", "A"], .positional ["1", "B"]] =
      [⟨"1", "A", "https://registrosfp.educacion.gob.es/registroestatalentidadesformacion/centro/1"⟩,
       ⟨"1", "B", "https://registrosfp.educacion.gob.es/registroestatalentidadesformacion/centro/1"⟩]
    ∧ ¬ ((parse_centers [.positional ["1", "A"], .positional ["1", "B"]]).map
        CenterRecord.codigo).Nodup := by
  constructor
  · decide
  · decide

/-- C1 amended: parse_centers keeps the record of every valid row in
row order, each row contributing independently of all others (it is a
per-row filter-map), so rows with duplicate codes each appear. -/
theorem c1_amended_no_dedup (xs ys : List RawRow) :
    parse_centers (xs ++ ys) = parse_centers xs ++ parse_centers ys := by
  unfold parse_centers
  exact List.filterMap_append xs ys parseOneCenter

/-- Array-encoded rows. -/
def isPositionalRow : RawRow → Bool
  | .positional _ => true
  | .keyed _ => false

/-- C2 counterexample: an object-encoded row with non-empty code and
name values under recognized key spellings produces no record. -/
theorem c2_counterexample :
    parse_centers [.keyed [("codigo", "123"), ("nombre", "X")]] = [] := by
  decide

/-- C2 amended: parse_centers accepts only array-encoded rows; every
object-encoded row is dropped, no key lookup being performed. -/
theorem c2_amended_keyed_dropped (rows : List RawRow) :
    parse_centers rows = parse_centers (rows.filter isPositionalRow) := by
  induction rows with
  | nil => rfl
  | cons r rs ih =>
    cases r with
    | positional cells =>
      simp only [parse_centers] at ih ⊢
      simp [List.filter_cons, isPositionalRow, List.filterMap_cons, ih]
    | keyed pairs =>
      have hdrop : parseOneCenter (.keyed pairs) = none := rfl
      simp only [parse_centers] at ih ⊢
      simp [List.filter_cons, isPositionalRow, List.filterMap_cons, hdrop, ih]

/-- C8: a request body containing none of start=/length=/draw= makes
fetch_all_centers return the first page's rows with no fetch issued. -/
theorem c8_single_page (backend : Nat → FetchResult) (tpl : ReqTemplate)
    (first : Payload) (fuel : Nat)
    (h1 : containsSub "start=" tpl.post_data = false)
    (h2 : containsSub "length=" tpl.post_data = false)
    (h3 : containsSub "draw=" tpl.post_data = false) :
    fetch_all_centers backend tpl first fuel =
      some (.ok ⟨rows_from_payload first, .notDT, [], totalOf first⟩) := by
  simp only [fetch_all_centers, h1, h2, h3]
  rfl

/-- C8 witness: a concrete parameterless template. -/
theorem c8_single_page_witness :
    fetch_all_centers (fun _ => .notOk) ⟨"u", "POST", "q=1"⟩ (.arr [.positional ["a"]]) 5 =
      some (.ok ⟨[.positional ["a"]], .notDT, [], none⟩) :=
  c8_single_page (fun _ => .notOk) ⟨"u", "POST", "q=1"⟩ (.arr [.positional ["a"]]) 5
    (by decide) (by decide) (by decide)

/-! ### C9: the candidate ordering is the stable descending sort -/

/-- The sort comparison on enumerated requests: non-strict descending
score (the index is ignored, as `key=score` ignores it). -/
abbrev cmpE (a b : Nat × CapturedReq) : Prop := score b.2 ≤ score a.2

/-- Descending score with observation index breaking ties. -/
abbrev rLex (a b : Nat × CapturedReq) : Prop :=
  score b.2 < score a.2 ∨ (score a.2 = score b.2 ∧ a.1 ≤ b.1)

instance : IsTotal (Nat × CapturedReq) rLex :=
  ⟨by intro a b; simp only [rLex]; omega⟩

instance : IsTrans (Nat × CapturedReq) rLex :=
  ⟨by intro a b c h1 h2; simp only [rLex] at *; omega⟩

/-- Inserting with two relations that agree on the element against
every list member gives the same list. -/
lemma orderedInsert_congr_rel {α : Type} (r r' : α → α → Prop)
    [DecidableRel r] [DecidableRel r'] (x : α) :
    ∀ L : List α, (∀ y ∈ L, r x y ↔ r' x y) → L.orderedInsert r x = L.orderedInsert r' x := by
  intro L
  induction L with
  | nil => intro _; rfl
  | cons b L ih =>
    intro h
    simp only [List.orderedInsert]
    by_cases hb : r x b
    · rw [if_pos hb, if_pos ((h b (List.mem_cons_self b L)).mp hb)]
    · rw [if_neg hb, if_neg (fun hc => hb ((h b (List.mem_cons_self b L)).mpr hc)),
        ih (fun y hy => h y (List.mem_cons_of_mem b hy))]

/-- Projecting the enumerated sort forgets the indices. -/
lemma orderedInsert_map_snd (x : Nat × CapturedReq) :
    ∀ L : List (Nat × CapturedReq),
      (L.orderedInsert cmpE x).map Prod.snd =
        (L.map Prod.snd).orderedInsert (fun a b => score b ≤ score a) x.2 := by
  intro L
  induction L with
  | nil => rfl
  | cons b L ih =>
    simp only [List.orderedInsert, List.map_cons]
    by_cases hb : cmpE x b
    · rw [if_pos hb, if_pos hb]; simp
    · rw [if_neg hb, if_neg hb, List.map_cons, ih]

/-- The sort of the enumerated list projects to the plain sort. -/
lemma insertionSort_map_snd :
    ∀ L : List (Nat × CapturedReq),
      (L.insertionSort cmpE).map Prod.snd =
        (L.map Prod.snd).insertionSort (fun a b => score b ≤ score a) := by
  intro L
  induction L with
  | nil => rfl
  | cons x L ih =>
    simp only [List.insertionSort, List.map_cons]
    rw [← ih, orderedInsert_map_snd]

/-- On a list with strictly increasing indices, sorting by score alone
equals sorting by score with index tie-break: stability. -/
lemma insertionSort_agree :
    ∀ L : List (Nat × CapturedReq), L.Pairwise (fun a b => a.1 < b.1) →
      L.insertionSort cmpE = L.insertionSort rLex := by
  intro L
  induction L with
  | nil => intro _; rfl
  | cons x L ih =>
    intro h
    have hx := (List.pairwise_cons.mp h).1
    have hL := (List.pairwise_cons.mp h).2
    simp only [List.insertionSort]
    rw [ih hL]
    apply orderedInsert_congr_rel
    intro y hy
    have hxy : x.1 < y.1 := hx y ((List.mem_insertionSort rLex).mp hy)
    simp only [cmpE, rLex]
    omega

/-- C9: the candidate ordering is the stable descending sort by score:
it equals the sort of the enumerated captures by (descending score,
ascending observation index), which is a permutation sorted so that a
higher score comes first and equal scores keep observation order. -/
theorem c9_candidate_ordering (captured : List CapturedReq) :
    candidatesSorted captured = (captured.enum.insertionSort rLex).map Prod.snd
    ∧ (captured.enum.insertionSort rLex).Perm captured.enum
    ∧ List.Sorted rLex (captured.enum.insertionSort rLex) := by
  refine ⟨?_, List.perm_insertionSort rLex captured.enum,
    List.sorted_insertionSort rLex captured.enum⟩
  have hpw : captured.enum.Pairwise (fun a b => a.1 < b.1) := by
    have h := List.pairwise_lt_range captured.length
    rw [← List.enum_map_fst captured] at h
    exact List.pairwise_map.mp h
  rw [← insertionSort_agree captured.enum hpw, insertionSort_map_snd, List.enum_map_snd]
  rfl

/-! ### Pagination loop lemmas -/

/-- Splitting the concatenation of pages 0..n off its first page. -/
lemma range_flatMap_succ {β : Type} (f : Nat → List β) (n : Nat) :
    (List.range (n + 1)).flatMap f = f 0 ++ (List.range n).flatMap (fun i => f (i + 1)) := by
  rw [List.range_succ_eq_map, List.flatMap_cons]
  congr 1
  induction List.range n with
  | nil => rfl
  | cons m l ih => simp only [List.map_cons, List.flatMap_cons, ih, Nat.succ_eq_add_one]

/-- Length form of `range_flatMap_succ`. -/
lemma range_flatMap_succ_length {β : Type} (f : Nat → List β) (n : Nat) :
    ((List.range (n + 1)).flatMap f).length
      = (f 0).length + ((List.range n).flatMap (fun i => f (i + 1))).length := by
  rw [range_flatMap_succ]
  simp

/-- Every character `Nat.digitChar` yields below 10 is a digit. -/
lemma digitChar_isDigit (m : Nat) (h : m < 10) : (Nat.digitChar m).isDigit = true := by
  interval_cases m <;> decide

/-- All characters `Nat.toDigitsCore 10` produces are decimal digits. -/
lemma toDigitsCore_isDigit (fuel : Nat) :
    ∀ (n : Nat) (acc : List Char), (∀ c ∈ acc, c.isDigit = true) →
      ∀ c ∈ Nat.toDigitsCore 10 fuel n acc, c.isDigit = true := by
  induction fuel with
  | zero =>
    intro n acc hacc c hc
    exact hacc c (by simpa [Nat.toDigitsCore] using hc)
  | succ f ih =>
    intro n acc hacc c hc
    simp only [Nat.toDigitsCore] at hc
    by_cases hz : n / 10 = 0
    · rw [if_pos hz] at hc
      rcases List.mem_cons.mp hc with rfl | hmem
      · exact digitChar_isDigit _ (Nat.mod_lt n (by omega))
      · exact hacc c hmem
    · rw [if_neg hz] at hc
      refine ih (n / 10) _ ?_ c hc
      intro c' hc'
      rcases List.mem_cons.mp hc' with rfl | hmem
      · exact digitChar_isDigit _ (Nat.mod_lt n (by omega))
      · exact hacc c' hmem

/-- The decimal rendering of a natural number is all digits. -/
lemma toString_nat_isDigit (n : Nat) : ∀ c ∈ (toString n).toList, c.isDigit = true := by
  intro c hc
  have hrepr : (toString n).toList = Nat.toDigits 10 n := rfl
  rw [hrepr, Nat.toDigits] at hc
  exact toDigitsCore_isDigit (n + 1) n [] (by simp) c hc

/-- A substring match forces its first character into the text. -/
lemma isSubL_head_mem {c : Char} {cs : List Char} :
    ∀ {h : List Char}, isSubL (c :: cs) h = true → c ∈ h := by
  intro h
  induction h with
  | nil => intro hh; simp [isSubL] at hh
  | cons x xs ih =>
    intro hh
    simp only [isSubL, Bool.or_eq_true] at hh
    rcases hh with hp | hs
    · have hcx : c = x := by
        simp only [List.isPrefixOf, Bool.and_eq_true, beq_iff_eq] at hp
        exact hp.1
      exact hcx ▸ List.mem_cons_self x xs
    · exact List.mem_cons_of_mem x (ih hs)

/-- A list is a Boolean prefix of itself extended on the right. -/
lemma isPrefixOf_append_self (l r : List Char) : l.isPrefixOf (l ++ r) = true := by
  induction l with
  | nil => cases r <;> rfl
  | cons c cs ih => simp [List.isPrefixOf, ih]

/-- A prefix is a substring. -/
lemma isSubL_of_prefix (n r : List Char) : isSubL n (n ++ r) = true := by
  cases n with
  | nil => cases r <;> simp [isSubL, List.isPrefixOf]
  | cons c cs => simp [isSubL, isPrefixOf_append_self]

/-- Characters of the `subParamL` rewrite come from the replacement or
the input. -/
lemma subParamL_mem {a : Char} (key repl : List Char) :
    ∀ (fuel : Nat) (s : List Char), a ∈ subParamL key repl fuel s → a ∈ repl ∨ a ∈ s := by
  intro fuel
  induction fuel with
  | zero => exact fun s h => Or.inr h
  | succ f ih =>
    intro s h
    match s with
    | [] => simp [subParamL] at h
    | c :: rest =>
      simp only [subParamL] at h
      split at h
      · rcases List.mem_append.mp h with h1 | h2
        · exact Or.inl h1
        · rcases ih _ h2 with h3 | h4
          · exact Or.inl h3
          · exact Or.inr (((List.dropWhile_sublist _).trans
              (List.drop_sublist _ _)).subset h4)
      · rcases List.mem_cons.mp h with rfl | h2
        · exact Or.inr (List.mem_cons_self _ _)
        · rcases ih _ h2 with h3 | h4
          · exact Or.inl h3
          · exact Or.inr (List.mem_cons_of_mem _ h4)

/-- Concatenation of strings concatenates their characters. -/
lemma toList_append : ∀ (x y : String), (x ++ y).toList = x.toList ++ y.toList
  | ⟨_⟩, ⟨_⟩ => rfl

/-- `replace_param` with the constant length value 500 always
succeeds (the template expands to the octal escape `h0` rather than
raising), and every output character comes from the input or from the
fixed strings involved — in particular no `d` is introduced. -/
lemma replace_param_length_chars (postdata : String) :
    ∃ r, replace_param postdata "length" "500" = some r ∧
      ∀ a ∈ r.toList, a ∈ postdata.toList ∨ a ∈ ("length=500h0&" : String).toList := by
  have hsub : subTemplate "length" "500" = some "h0" := by decide
  unfold replace_param
  split
  · refine ⟨_, rfl, ?_⟩
    intro a ha
    rw [toList_append, toList_append, toList_append, toList_append] at ha
    simp only [List.mem_append] at ha
    have hamp : ∀ x ∈ ("&" : String).toList, x ∈ ("length=500h0&" : String).toList := by decide
    have hlen : ∀ x ∈ ("length" : String).toList, x ∈ ("length=500h0&" : String).toList := by
      decide
    have heq : ∀ x ∈ ("=" : String).toList, x ∈ ("length=500h0&" : String).toList := by decide
    have h500 : ∀ x ∈ ("500" : String).toList, x ∈ ("length=500h0&" : String).toList := by
      decide
    rcases ha with (((hp | hsep) | hl) | he) | h5
    · exact Or.inl hp
    · right
      by_cases hc : postdata = "" ∨ endsWithAmp postdata = true
      · rw [if_pos hc] at hsep
        simp at hsep
      · rw [if_neg hc] at hsep
        exact hamp a hsep
    · exact Or.inr (hlen a hl)
    · exact Or.inr (heq a he)
    · exact Or.inr (h500 a h5)
  · rw [hsub]
    refine ⟨_, rfl, ?_⟩
    intro a ha
    have hh0 : ∀ x ∈ ("h0" : String).toList, x ∈ ("length=500h0&" : String).toList := by decide
    rcases subParamL_mem _ _ _ _ ha with hrep | hin
    · exact Or.inr (hh0 a hrep)
    · exact Or.inl hin

/-- On the draw-free template `length=10`, every loop iteration's body
rewrite succeeds: the offset is appended (the template has no
`start=`), the length rewrite lands on the octal-escape path, and no
`draw=` occurrence can arise since no step introduces a `d`. -/
lemma nextPd_length10_some (s : Nat) (d : Option Int) :
    nextPd "length=10" s d ≠ none := by
  have hpd1 : replace_param "length=10" "start" (toString s)
      = some ("length=10&start=" ++ toString s) := by
    unfold replace_param
    rw [if_pos (by decide)]
    rfl
  obtain ⟨r2, hr2, hr2chars⟩ := replace_param_length_chars ("length=10&start=" ++ toString s)
  simp only [nextPd, hpd1, hr2]
  cases d with
  | none => simp
  | some m =>
    have hnod : containsSub ("draw" ++ "=") r2 = false := by
      cases hx : containsSub ("draw" ++ "=") r2
      · rfl
      · exfalso
        have hdmem : 'd' ∈ r2.toList :=
          @isSubL_head_mem 'd' ("raw=".toList) r2.toList hx
        rcases hr2chars 'd' hdmem with hin | hfix
        · rw [toList_append] at hin
          rcases List.mem_append.mp hin with h1 | h2
          · exact absurd h1 (by decide)
          · have hd := toString_nat_isDigit s 'd' h2
            simp at hd
        · exact absurd hfix (by decide)
    show replace_param r2 "draw" (toString (m + 1)) ≠ none
    unfold replace_param
    rw [if_pos (by rw [hnod]; simp)]
    simp

/-- A run of `k` fresh ok pages followed by a page whose fingerprint
was already seen stops the loop with a stall, appending exactly the
fresh pages and fetching `k + 1` times — provided every body rewrite
succeeds (no `re.error`). -/
lemma fetchLoop_stall (backend : Nat → FetchResult) (tpl : String) (obj : Nat → Payload)
    (htpl : ∀ (s : Nat) (d : Option Int), nextPd tpl s d ≠ none) :
    ∀ (k idx : Nat) (st : LoopState) (fuel : Nat),
      st.total = none →
      (∀ i, i ≤ k → backend (idx + i) = .ok (obj (idx + i))) →
      (∀ i, i ≤ k → rows_from_payload (obj (idx + i)) ≠ []) →
      (∀ i, i < k → totalOf (obj (idx + i)) = none) →
      (∀ i, i < k → fingerprint (rows_from_payload (obj (idx + i))) ∉ st.seen) →
      (∀ i j, i < k → j < i → fingerprint (rows_from_payload (obj (idx + i)))
        ≠ fingerprint (rows_from_payload (obj (idx + j)))) →
      (fingerprint (rows_from_payload (obj (idx + k))) ∈ st.seen
        ∨ ∃ j, j < k ∧ fingerprint (rows_from_payload (obj (idx + k)))
          = fingerprint (rows_from_payload (obj (idx + j)))) →
      k + 1 ≤ fuel →
      ∃ ps, fetchLoop backend tpl fuel idx st =
          some (.ok ⟨st.all_rows
              ++ (List.range k).flatMap (fun i => rows_from_payload (obj (idx + i))),
            .stall, st.sent ++ ps, none⟩)
        ∧ ps.length = k + 1 := by
  intro k
  induction k with
  | zero =>
    intro idx st fuel htot hok hne _hnt _hfresh _hdist hrep hfuel
    obtain ⟨f, rfl⟩ : ∃ f, fuel = f + 1 := ⟨fuel - 1, by omega⟩
    obtain ⟨pd, hpd⟩ : ∃ pd, nextPd tpl (st.start + st.page_size_real) st.draw = some pd := by
      cases h : nextPd tpl (st.start + st.page_size_real) st.draw
      · exact absurd h (htpl _ _)
      · exact ⟨_, rfl⟩
    have hb : backend idx = .ok (obj idx) := by simpa using hok 0 (by omega)
    have hrows : ¬ (rows_from_payload (obj idx) = []) := by simpa using hne 0 (by omega)
    have hfp : fingerprint (rows_from_payload (obj idx)) ∈ st.seen := by
      rcases hrep with h | ⟨j, hj, _⟩
      · simpa using h
      · omega
    refine ⟨[pd], ?_, rfl⟩
    simp only [fetchLoop, hpd, hb, if_neg hrows, if_pos hfp]
    simp [htot]
  | succ k ih =>
    intro idx st fuel htot hok hne hnt hfresh hdist hrep hfuel
    obtain ⟨f, rfl⟩ : ∃ f, fuel = f + 1 := ⟨fuel - 1, by omega⟩
    obtain ⟨pd, hpd⟩ : ∃ pd, nextPd tpl (st.start + st.page_size_real) st.draw = some pd := by
      cases h : nextPd tpl (st.start + st.page_size_real) st.draw
      · exact absurd h (htpl _ _)
      · exact ⟨_, rfl⟩
    have hb : backend idx = .ok (obj idx) := by simpa using hok 0 (by omega)
    have hrows : ¬ (rows_from_payload (obj idx) = []) := by simpa using hne 0 (by omega)
    have hfp : ¬ (fingerprint (rows_from_payload (obj idx)) ∈ st.seen) := by
      simpa using hfresh 0 (by omega)
    have hnt0 : totalOf (obj idx) = none := by simpa using hnt 0 (by omega)
    have hok' : ∀ i, i ≤ k → backend (idx + 1 + i) = .ok (obj (idx + 1 + i)) := by
      intro i hi
      have h13 : idx + 1 + i = idx + (i + 1) := by omega
      rw [h13]; exact hok (i + 1) (by omega)
    have hne' : ∀ i, i ≤ k → rows_from_payload (obj (idx + 1 + i)) ≠ [] := by
      intro i hi
      have h13 : idx + 1 + i = idx + (i + 1) := by omega
      rw [h13]; exact hne (i + 1) (by omega)
    have hnt' : ∀ i, i < k → totalOf (obj (idx + 1 + i)) = none := by
      intro i hi
      have h13 : idx + 1 + i = idx + (i + 1) := by omega
      rw [h13]; exact hnt (i + 1) (by omega)
    have hfresh' : ∀ i, i < k → fingerprint (rows_from_payload (obj (idx + 1 + i)))
        ∉ fingerprint (rows_from_payload (obj idx)) :: st.seen := by
      intro i hi
      have h13 : idx + 1 + i = idx + (i + 1) := by omega
      rw [h13]
      intro hmem
      rcases List.mem_cons.mp hmem with heq | hmem'
      · exact hdist (i + 1) 0 (by omega) (by omega) (by simpa using heq)
      · exact hfresh (i + 1) (by omega) hmem'
    have hdist' : ∀ i j, i < k → j < i → fingerprint (rows_from_payload (obj (idx + 1 + i)))
        ≠ fingerprint (rows_from_payload (obj (idx + 1 + j))) := by
      intro i j hi hj
      have h13 : idx + 1 + i = idx + (i + 1) := by omega
      have h14 : idx + 1 + j = idx + (j + 1) := by omega
      rw [h13, h14]
      exact hdist (i + 1) (j + 1) (by omega) (by omega)
    have hrep' : fingerprint (rows_from_payload (obj (idx + 1 + k)))
        ∈ fingerprint (rows_from_payload (obj idx)) :: st.seen
        ∨ ∃ j, j < k ∧ fingerprint (rows_from_payload (obj (idx + 1 + k)))
          = fingerprint (rows_from_payload (obj (idx + 1 + j))) := by
      have h13 : idx + 1 + k = idx + (k + 1) := by omega
      rw [h13]
      rcases hrep with hmem | ⟨j, hj, heq⟩
      · exact Or.inl (List.mem_cons_of_mem _ hmem)
      · rcases Nat.eq_zero_or_pos j with rfl | hjpos
        · exact Or.inl (by rw [heq]; simp)
        · refine Or.inr ⟨j - 1, by omega, ?_⟩
          have h15 : idx + 1 + (j - 1) = idx + j := by omega
          rw [h15]; exact heq
    obtain ⟨ps', hloop, hps'⟩ := ih (idx + 1)
      ⟨st.start + st.page_size_real, Nat.max 1 (rows_from_payload (obj idx)).length,
        nextDraw st.draw, st.all_rows ++ rows_from_payload (obj idx),
        fingerprint (rows_from_payload (obj idx)) :: st.seen, none,
        st.sent ++ [pd]⟩ f rfl
      hok' hne' hnt' hfresh' hdist' hrep' (by omega)
    refine ⟨pd :: ps', ?_, by simp [hps']⟩
    have hunfold : fetchLoop backend tpl (f + 1) idx st = fetchLoop backend tpl f (idx + 1)
        ⟨st.start + st.page_size_real, Nat.max 1 (rows_from_payload (obj idx)).length,
          nextDraw st.draw, st.all_rows ++ rows_from_payload (obj idx),
          fingerprint (rows_from_payload (obj idx)) :: st.seen, none,
          st.sent ++ [pd]⟩ := by
      simp only [fetchLoop, hpd, hb, if_neg hrows, if_neg hfp, nextTotal, htot, hnt0, totalHit,
        Bool.false_eq_true, if_false]
    rw [hunfold, hloop]
    have hpages : (fun i => rows_from_payload (obj (idx + 1 + i)))
        = fun i => rows_from_payload (obj (idx + (i + 1))) := by
      funext i
      have h13 : idx + 1 + i = idx + (i + 1) := by omega
      rw [h13]
    simp only [hpages]
    rw [range_flatMap_succ (fun i => rows_from_payload (obj (idx + i))) k]
    simp [List.append_assoc]

/-- A run of `k + 1` fresh ok pages whose accumulated row count first
reaches the known declared total at the last page stops the loop there
with `totalReached`, after exactly `k + 1` fetches — provided every
body rewrite succeeds (no `re.error`). -/
lemma fetchLoop_total (backend : Nat → FetchResult) (tpl : String) (obj : Nat → Payload)
    (T : Nat) (htpl : ∀ (s : Nat) (d : Option Int), nextPd tpl s d ≠ none) :
    ∀ (k idx : Nat) (st : LoopState) (fuel : Nat),
      st.total = some T →
      (∀ i, i ≤ k → backend (idx + i) = .ok (obj (idx + i))) →
      (∀ i, i ≤ k → rows_from_payload (obj (idx + i)) ≠ []) →
      (∀ i, i ≤ k → fingerprint (rows_from_payload (obj (idx + i))) ∉ st.seen) →
      (∀ i j, i ≤ k → j < i → fingerprint (rows_from_payload (obj (idx + i)))
        ≠ fingerprint (rows_from_payload (obj (idx + j)))) →
      (∀ i, i < k → st.all_rows.length
        + ((List.range (i + 1)).flatMap (fun j => rows_from_payload (obj (idx + j)))).length < T) →
      st.all_rows.length
        + ((List.range (k + 1)).flatMap (fun j => rows_from_payload (obj (idx + j)))).length ≥ T →
      k + 1 ≤ fuel →
      ∃ ps, fetchLoop backend tpl fuel idx st =
          some (.ok ⟨st.all_rows
              ++ (List.range (k + 1)).flatMap (fun i => rows_from_payload (obj (idx + i))),
            .totalReached, st.sent ++ ps, some T⟩)
        ∧ ps.length = k + 1 := by
  intro k
  induction k with
  | zero =>
    intro idx st fuel htot hok hne hfresh _hdist _hmid hreach hfuel
    obtain ⟨f, rfl⟩ : ∃ f, fuel = f + 1 := ⟨fuel - 1, by omega⟩
    obtain ⟨pd, hpd⟩ : ∃ pd, nextPd tpl (st.start + st.page_size_real) st.draw = some pd := by
      cases h : nextPd tpl (st.start + st.page_size_real) st.draw
      · exact absurd h (htpl _ _)
      · exact ⟨_, rfl⟩
    have hb : backend idx = .ok (obj idx) := by simpa using hok 0 (by omega)
    have hrows : ¬ (rows_from_payload (obj idx) = []) := by simpa using hne 0 (by omega)
    have hfp : ¬ (fingerprint (rows_from_payload (obj idx)) ∈ st.seen) := by
      simpa using hfresh 0 (by omega)
    have hlen1 : ((List.range (0 + 1)).flatMap
        (fun j => rows_from_payload (obj (idx + j)))).length
        = (rows_from_payload (obj idx)).length := by
      simp [List.range_succ]
    rw [hlen1] at hreach
    have hhit : totalHit (some T) (st.all_rows ++ rows_from_payload (obj idx)).length = true := by
      simp only [totalHit, decide_eq_true_eq, List.length_append, ge_iff_le]
      omega
    refine ⟨[pd], ?_, rfl⟩
    simp only [fetchLoop, hpd, hb, if_neg hrows, if_neg hfp, htot, nextTotal, hhit, if_true]
    have hrw : (List.range (0 + 1)).flatMap (fun i => rows_from_payload (obj (idx + i)))
        = rows_from_payload (obj idx) := by simp [List.range_succ]
    rw [hrw]
  | succ k ih =>
    intro idx st fuel htot hok hne hfresh hdist hmid hreach hfuel
    obtain ⟨f, rfl⟩ : ∃ f, fuel = f + 1 := ⟨fuel - 1, by omega⟩
    obtain ⟨pd, hpd⟩ : ∃ pd, nextPd tpl (st.start + st.page_size_real) st.draw = some pd := by
      cases h : nextPd tpl (st.start + st.page_size_real) st.draw
      · exact absurd h (htpl _ _)
      · exact ⟨_, rfl⟩
    have hb : backend idx = .ok (obj idx) := by simpa using hok 0 (by omega)
    have hrows : ¬ (rows_from_payload (obj idx) = []) := by simpa using hne 0 (by omega)
    have hfp : ¬ (fingerprint (rows_from_payload (obj idx)) ∈ st.seen) := by
      simpa using hfresh 0 (by omega)
    have hpages : ∀ m, (List.range m).flatMap (fun i => rows_from_payload (obj (idx + 1 + i)))
        = (List.range m).flatMap (fun i => rows_from_payload (obj (idx + (i + 1)))) := by
      intro m
      congr 1
      funext i
      have h13 : idx + 1 + i = idx + (i + 1) := by omega
      rw [h13]
    have hlen1 : ((List.range (0 + 1)).flatMap
        (fun j => rows_from_payload (obj (idx + j)))).length
        = (rows_from_payload (obj idx)).length := by
      simp [List.range_succ]
    have hmid0 : st.all_rows.length + (rows_from_payload (obj idx)).length < T := by
      have h := hmid 0 (by omega)
      rw [hlen1] at h
      exact h
    have hnohit : ¬ (totalHit (some T)
        (st.all_rows ++ rows_from_payload (obj idx)).length = true) := by
      simp only [totalHit, decide_eq_true_eq, List.length_append, ge_iff_le]
      omega
    have hok' : ∀ i, i ≤ k → backend (idx + 1 + i) = .ok (obj (idx + 1 + i)) := by
      intro i hi
      have h13 : idx + 1 + i = idx + (i + 1) := by omega
      rw [h13]; exact hok (i + 1) (by omega)
    have hne' : ∀ i, i ≤ k → rows_from_payload (obj (idx + 1 + i)) ≠ [] := by
      intro i hi
      have h13 : idx + 1 + i = idx + (i + 1) := by omega
      rw [h13]; exact hne (i + 1) (by omega)
    have hfresh' : ∀ i, i ≤ k → fingerprint (rows_from_payload (obj (idx + 1 + i)))
        ∉ fingerprint (rows_from_payload (obj idx)) :: st.seen := by
      intro i hi
      have h13 : idx + 1 + i = idx + (i + 1) := by omega
      rw [h13]
      intro hmem
      rcases List.mem_cons.mp hmem with heq | hmem'
      · exact hdist (i + 1) 0 (by omega) (by omega) (by simpa using heq)
      · exact hfresh (i + 1) (by omega) hmem'
    have hdist' : ∀ i j, i ≤ k → j < i → fingerprint (rows_from_payload (obj (idx + 1 + i)))
        ≠ fingerprint (rows_from_payload (obj (idx + 1 + j))) := by
      intro i j hi hj
      have h13 : idx + 1 + i = idx + (i + 1) := by omega
      have h14 : idx + 1 + j = idx + (j + 1) := by omega
      rw [h13, h14]
      exact hdist (i + 1) (j + 1) (by omega) (by omega)
    have hmid' : ∀ i, i < k → (st.all_rows ++ rows_from_payload (obj idx)).length
        + ((List.range (i + 1)).flatMap (fun j => rows_from_payload (obj (idx + 1 + j)))).length
        < T := by
      intro i hi
      have h := hmid (i + 1) (by omega)
      have hlen := range_flatMap_succ_length (fun j => rows_from_payload (obj (idx + j))) (i + 1)
      simp only [Nat.add_zero] at hlen
      rw [hpages (i + 1)]
      simp only [List.length_append]
      omega
    have hreach' : (st.all_rows ++ rows_from_payload (obj idx)).length
        + ((List.range (k + 1)).flatMap (fun j => rows_from_payload (obj (idx + 1 + j)))).length
        ≥ T := by
      have hlen := range_flatMap_succ_length (fun j => rows_from_payload (obj (idx + j))) (k + 1)
      simp only [Nat.add_zero] at hlen
      rw [hpages (k + 1)]
      simp only [List.length_append]
      omega
    obtain ⟨ps', hloop, hps'⟩ := ih (idx + 1)
      ⟨st.start + st.page_size_real, Nat.max 1 (rows_from_payload (obj idx)).length,
        nextDraw st.draw, st.all_rows ++ rows_from_payload (obj idx),
        fingerprint (rows_from_payload (obj idx)) :: st.seen, some T,
        st.sent ++ [pd]⟩ f rfl
      hok' hne' hfresh' hdist' hmid' hreach' (by omega)
    refine ⟨pd :: ps', ?_, by simp [hps']⟩
    have hunfold : fetchLoop backend tpl (f + 1) idx st = fetchLoop backend tpl f (idx + 1)
        ⟨st.start + st.page_size_real, Nat.max 1 (rows_from_payload (obj idx)).length,
          nextDraw st.draw, st.all_rows ++ rows_from_payload (obj idx),
          fingerprint (rows_from_payload (obj idx)) :: st.seen, some T,
          st.sent ++ [pd]⟩ := by
      simp only [fetchLoop, hpd, hb, if_neg hrows, if_neg hfp, if_neg hnohit, htot, nextTotal]
    rw [hunfold, hloop]
    rw [hpages (k + 1), range_flatMap_succ (fun i => rows_from_payload (obj (idx + i))) (k + 1)]
    simp [List.append_assoc]

/-- A synthetic page of `n` one-cell rows sharing first cell `s`. -/
def c4wPage (s : String) (n : Nat) : List RawRow := List.replicate n (.positional [s])

/-- Synthetic loop pages for C4: 50, 50, 50, then 37 rows, with
pairwise distinct fingerprints. -/
def c4wObj : Nat → Payload
  | 0 => .arr (c4wPage "a" 50)
  | 1 => .arr (c4wPage "b" 50)
  | 2 => .arr (c4wPage "c" 50)
  | _ => .arr (c4wPage "d" 37)

/-- The C4 backend serves those pages. -/
def c4wBackend (i : Nat) : FetchResult := .ok (c4wObj i)

/-- The C4 first page: 50 rows, declared total 237. -/
def c4wFirst : Payload := .dict ⟨some (c4wPage "e" 50), none, none, none, some 237, none⟩

/-- C4 counterexample: on the canonical DataTables template the draw
rewrite raises `re.error` at the first loop iteration (the start and
length rewrites having already collapsed to octal-escape garbage), so
the 237-total backend produces no fetches, no 5-page run and no row
list at all — the exception aborts the call. -/
theorem c4_counterexample :
    fetch_all_centers c4wBackend ⟨"u", "POST", "draw=1&start=0&length=10"⟩ c4wFirst 10
      = some .err
    ∧ replace_param "draw=1&start=0&length=10" "start" "50" = some "draw=1&h&length=10"
    ∧ replace_param "draw=1&h&h0" "draw" "2" = none := by
  exact ⟨by decide, by decide, by decide⟩

/-- C4 amended: provided every loop body rewrite succeeds (raises no
`re.error`), a backend declaring a total of 237 and serving fresh
pages of 50, 50, 50 and 37 rows after a 50-row first page makes the
paginator stop through the accumulated-count condition with exactly
237 rows after 4 loop fetches (5 pages counting the prober's first
page). -/
theorem c4_five_pages_237 (backend : Nat → FetchResult) (tpl : ReqTemplate)
    (first : Payload) (obj : Nat → Payload) (fuel : Nat)
    (hm : tpl.method = "POST")
    (hdt : containsSub "start=" tpl.post_data = true ∨ containsSub "length=" tpl.post_data = true
      ∨ containsSub "draw=" tpl.post_data = true)
    (htpl : ∀ (s : Nat) (d : Option Int), nextPd tpl.post_data s d ≠ none)
    (htot : totalOf first = some 237)
    (hfirst : (rows_from_payload first).length = 50)
    (hok : ∀ i, i ≤ 3 → backend i = .ok (obj i))
    (hlenA : (rows_from_payload (obj 0)).length = 50)
    (hlenB : (rows_from_payload (obj 1)).length = 50)
    (hlenC : (rows_from_payload (obj 2)).length = 50)
    (hlenD : (rows_from_payload (obj 3)).length = 37)
    (hfresh : ∀ i, i ≤ 3 → fingerprint (rows_from_payload (obj i))
      ≠ fingerprint (rows_from_payload first))
    (hdist : ∀ i j, i ≤ 3 → j < i → fingerprint (rows_from_payload (obj i))
      ≠ fingerprint (rows_from_payload (obj j)))
    (hfuel : 4 ≤ fuel) :
    ∃ out, fetch_all_centers backend tpl first fuel = some (.ok out)
      ∧ out.rows.length = 237
      ∧ out.reason = .totalReached
      ∧ out.sent.length = 4 := by
  have hisdt : ((containsSub "start=" tpl.post_data || containsSub "length=" tpl.post_data
      || containsSub "draw=" tpl.post_data) && (tpl.method == "POST")) = true := by
    rcases hdt with h | h | h <;> simp [h, hm]
  have hne : ∀ i, i ≤ 3 → rows_from_payload (obj i) ≠ [] := by
    intro i hi hnil
    have hlen0 : (rows_from_payload (obj i)).length = 0 := by rw [hnil]; rfl
    interval_cases i <;> omega
  obtain ⟨ps, hloop, hps⟩ := fetchLoop_total backend tpl.post_data obj 237 htpl 3 0
    ⟨0, Nat.max 1 (rows_from_payload first).length, parseDraw tpl.post_data,
      rows_from_payload first, [fingerprint (rows_from_payload first)], some 237, []⟩ fuel
    rfl
    (fun i hi => by simpa using hok i hi)
    (fun i hi => by simpa using hne i hi)
    (fun i hi => by simpa using hfresh i hi)
    (fun i j hi hj => by simpa using hdist i j hi hj)
    (by
      intro i hi
      interval_cases i <;>
        simp [List.range_succ, List.flatMap_append, hfirst, hlenA, hlenB, hlenC])
    (by simp [List.range_succ, List.flatMap_append, hfirst, hlenA, hlenB, hlenC, hlenD])
    hfuel
  refine ⟨⟨rows_from_payload first
      ++ (List.range 4).flatMap (fun i => rows_from_payload (obj (0 + i))),
      .totalReached, ps, some 237⟩, ?_, ?_, rfl, by simpa using hps⟩
  · simp only [fetch_all_centers, hisdt, Bool.not_true, Bool.false_eq_true, if_false, htot]
    rw [hloop]
    simp
  · simp [List.range_succ, List.flatMap_append, hfirst, hlenA, hlenB, hlenC, hlenD]

/-- The raise-free C4 witness template: only the length parameter is
present, so the offset is appended and no draw rewrite ever happens. -/
def c4wTplOk : ReqTemplate := ⟨"u", "POST", "length=10"⟩

/-- C4 witness: on the raise-free template the synthetic 237-record
backend yields 237 rows in 4 loop fetches ending with totalReached. -/
theorem c4_five_pages_237_witness :
    (fetch_all_centers c4wBackend c4wTplOk c4wFirst 10).map
      (fun r => match r with
        | .ok o => some (o.rows.length, o.reason, o.sent.length)
        | .err => none) = some (some (237, .totalReached, 4)) := by
  obtain ⟨out, heq, h1, h2, h3⟩ := c4_five_pages_237 c4wBackend c4wTplOk c4wFirst c4wObj 10
    rfl (Or.inr (Or.inl (by decide)))
    (fun s d => nextPd_length10_some s d)
    (by decide) (by decide) (fun i _ => rfl)
    (by decide) (by decide) (by decide) (by decide)
    (by decide)
    (by intro i j hi hj; interval_cases i <;> interval_cases j <;> decide)
    (by omega)
  rw [heq]
  have hcomp : (out.rows.length, out.reason, out.sent.length)
      = (237, StopReason.totalReached, 4) := by
    rw [h1, h2, h3]
  simpa using hcomp

/-- While the declared total stays unknown (no response supplies one),
a normal return of the loop can never come from the accumulated-count
condition. -/
lemma fetchLoop_no_total (backend : Nat → FetchResult) (tpl : String)
    (hobj : ∀ i o, backend i = .ok o → totalOf o = none) :
    ∀ (fuel idx : Nat) (st : LoopState), st.total = none →
      ∀ out, fetchLoop backend tpl fuel idx st = some (.ok out) →
        out.reason ≠ .totalReached := by
  intro fuel
  induction fuel with
  | zero =>
    intro idx st _ out h
    simp [fetchLoop] at h
  | succ f ih =>
    intro idx st htot out h
    simp only [fetchLoop] at h
    cases hnp : nextPd tpl (st.start + st.page_size_real) st.draw with
    | none =>
      rw [hnp] at h
      exact absurd h (by simp)
    | some pd =>
      rw [hnp] at h
      cases hb : backend idx with
      | notOk =>
        rw [hb] at h
        injection h with h2
        injection h2 with h3
        rw [← h3]
        simp
      | badBody =>
        rw [hb] at h
        injection h with h2
        injection h2 with h3
        rw [← h3]
        simp
      | ok obj =>
        rw [hb] at h
        have hto : totalOf obj = none := hobj idx obj hb
        rw [htot] at h
        simp only [nextTotal, hto] at h
        by_cases h1 : rows_from_payload obj = []
        · rw [if_pos h1] at h
          injection h with h2
          injection h2 with h3
          rw [← h3]
          simp
        · rw [if_neg h1] at h
          by_cases h2 : fingerprint (rows_from_payload obj) ∈ st.seen
          · rw [if_pos h2] at h
            injection h with h3
            injection h3 with h4
            rw [← h4]
            simp
          · rw [if_neg h2] at h
            have hhit : totalHit none (st.all_rows ++ rows_from_payload obj).length = false := rfl
            rw [hhit] at h
            simp only [Bool.false_eq_true, if_false] at h
            exact ih (idx + 1) _ rfl out h

/-- C10 counterexample: with recordsFiltered = 0 and recordsTotal = 0
the declared total becomes 0 — not unknown — and on a template whose
body rewrite succeeds, pagination stops through the accumulated-count
condition at the first fetched page, although that page was served
with status 200, parseable, non-empty and with a fresh fingerprint. -/
theorem c10_counterexample :
    firstTruthyTotal (some 0) (some 0) = some 0
    ∧ fetch_all_centers (fun i => .ok (.arr [.positional [toString i]]))
        ⟨"u", "POST", "length=10"⟩
        (.dict ⟨some [.positional ["x"]], none, none, none, some 0, some 0⟩) 5
      = some (.ok ⟨[.positional ["x"], .positional ["0"]], .totalReached,
          ["h0&start=1"], some 0⟩) := by
  exact ⟨rfl, by decide⟩

/-- C10 amended: the declared total is the first truthy of
recordsFiltered and recordsTotal: a recordsFiltered of 0 falls back to
recordsTotal's value, including 0 (in which case the accumulated-count
condition fires at the first fetched page, whenever that fetch's body
rewrite succeeds); the total is unknown only when the fallback yields
nothing, and while it stays unknown — no later page supplying one —
pagination never returns through the accumulated-count condition. -/
theorem c10_amended_first_truthy :
    (∀ rt : Option Nat, firstTruthyTotal (some 0) rt = rt)
    ∧ firstTruthyTotal none none = none
    ∧ (∀ (backend : Nat → FetchResult) (tpl : ReqTemplate) (first : Payload) (fuel : Nat),
        totalOf first = none →
        (∀ i o, backend i = .ok o → totalOf o = none) →
        ∀ out, fetch_all_centers backend tpl first fuel = some (.ok out) →
          out.reason ≠ .totalReached) := by
  refine ⟨fun rt => rfl, rfl, ?_⟩
  intro backend tpl first fuel htot hobj out h
  by_cases hdt : ((containsSub "start=" tpl.post_data || containsSub "length=" tpl.post_data
      || containsSub "draw=" tpl.post_data) && (tpl.method == "POST")) = true
  · simp only [fetch_all_centers, hdt, Bool.not_true, Bool.false_eq_true, if_false, htot] at h
    exact fetchLoop_no_total backend tpl.post_data hobj fuel 0 _ rfl out h
  · simp only [fetch_all_centers, Bool.not_eq_true] at h
    rw [Bool.not_eq_true] at hdt
    rw [hdt] at h
    simp only [Bool.not_false, if_pos] at h
    injection h with h2
    injection h2 with h3
    rw [← h3]
    simp

/-- C10 witness: recordsFiltered 0 defers to a present recordsTotal,
and a concrete no-total run returns through the empty-page exit, not
the accumulated-count condition. -/
theorem c10_amended_first_truthy_witness :
    firstTruthyTotal (some 0) (some 7) = some 7
    ∧ (⟨[.positional ["x"]], .noRows, ["h0&start=1"], none⟩ : FetchOutcome).reason
      ≠ .totalReached := by
  refine ⟨c10_amended_first_truthy.1 (some 7), ?_⟩
  exact c10_amended_first_truthy.2.2 (fun _ => .ok .other) ⟨"u", "POST", "length=10"⟩
    (.arr [.positional ["x"]]) 3 rfl
    (fun i o ho => by injection ho with h2; rw [← h2]; rfl)
    ⟨[.positional ["x"]], .noRows, ["h0&start=1"], none⟩ (by decide)

/-- C3 counterexample: with the canonical offset template the body
rewrite raises `re.error` at the first loop iteration, before any
fetch is issued — so although every response of this backend repeats
the first page's fingerprint, the call aborts with the exception and
returns no row list at all. -/
theorem c3_counterexample :
    fetch_all_centers (fun _ => .ok (.arr [.positional ["a"]])) ⟨"u", "POST", "start=0"⟩
        (.arr [.positional ["a"]]) 5 = some .err
    ∧ replace_param "start=0" "start" "1" = none := by
  exact ⟨by decide, by decide⟩

/-- C3 amended: provided every loop body rewrite succeeds (raises no
`re.error`), when the first `k` fetched pages are fresh and the next
fetch repeats an already-seen fingerprint (the first page's or an
earlier fetched page's), pagination terminates at that fetch — for
every sufficient fuel — returning exactly the pages fetched strictly
before the repeated-fingerprint page; the repeated page's rows are not
appended. -/
theorem c3_stall_truncation (backend : Nat → FetchResult) (tpl : ReqTemplate)
    (first : Payload) (obj : Nat → Payload) (k fuel : Nat)
    (hm : tpl.method = "POST")
    (hdt : containsSub "start=" tpl.post_data = true ∨ containsSub "length=" tpl.post_data = true
      ∨ containsSub "draw=" tpl.post_data = true)
    (htpl : ∀ (s : Nat) (d : Option Int), nextPd tpl.post_data s d ≠ none)
    (htot : totalOf first = none)
    (hok : ∀ i, i ≤ k → backend i = .ok (obj i))
    (hne : ∀ i, i ≤ k → rows_from_payload (obj i) ≠ [])
    (hnt : ∀ i, i < k → totalOf (obj i) = none)
    (hfresh : ∀ i, i < k → fingerprint (rows_from_payload (obj i))
      ≠ fingerprint (rows_from_payload first))
    (hdist : ∀ i j, i < k → j < i → fingerprint (rows_from_payload (obj i))
      ≠ fingerprint (rows_from_payload (obj j)))
    (hrep : fingerprint (rows_from_payload (obj k)) = fingerprint (rows_from_payload first)
      ∨ ∃ j, j < k ∧ fingerprint (rows_from_payload (obj k))
        = fingerprint (rows_from_payload (obj j)))
    (hfuel : k + 1 ≤ fuel) :
    ∃ out, fetch_all_centers backend tpl first fuel = some (.ok out)
      ∧ out.rows = rows_from_payload first
          ++ (List.range k).flatMap (fun i => rows_from_payload (obj i))
      ∧ out.reason = .stall
      ∧ out.sent.length = k + 1 := by
  have hisdt : ((containsSub "start=" tpl.post_data || containsSub "length=" tpl.post_data
      || containsSub "draw=" tpl.post_data) && (tpl.method == "POST")) = true := by
    rcases hdt with h | h | h <;> simp [h, hm]
  obtain ⟨ps, hloop, hps⟩ := fetchLoop_stall backend tpl.post_data obj htpl k 0
    ⟨0, Nat.max 1 (rows_from_payload first).length, parseDraw tpl.post_data,
      rows_from_payload first, [fingerprint (rows_from_payload first)], none, []⟩ fuel
    rfl
    (fun i hi => by simpa using hok i hi)
    (fun i hi => by simpa using hne i hi)
    (fun i hi => by simpa using hnt i hi)
    (fun i hi => by simpa using hfresh i hi)
    (fun i j hi hj => by simpa using hdist i j hi hj)
    (by
      rcases hrep with h | ⟨j, hj, h⟩
      · exact Or.inl (by simpa using h)
      · exact Or.inr ⟨j, hj, by simpa using h⟩)
    hfuel
  refine ⟨⟨rows_from_payload first
      ++ (List.range k).flatMap (fun i => rows_from_payload (obj i)), .stall, ps, none⟩,
    ?_, rfl, rfl, by simpa using hps⟩
  simp only [fetch_all_centers, hisdt, Bool.not_true, Bool.false_eq_true, if_false, htot]
  rw [hloop]
  simp

/-- C3 witness: on the raise-free template, a backend returning the
same fingerprinted page on two consecutive fetches stalls after the
second, keeping one copy. -/
theorem c3_stall_truncation_witness :
    (fetch_all_centers (fun _ => .ok (.arr [.positional ["b"]])) c4wTplOk
        (.arr [.positional ["a"]]) 2).map
      (fun r => match r with
        | .ok o => some (o.rows, o.reason, o.sent.length)
        | .err => none)
      = some (some ([.positional ["a"], .positional ["b"]], .stall, 2)) := by
  obtain ⟨out, heq, hrows, hreason, hsent⟩ := c3_stall_truncation
    (fun _ => .ok (.arr [.positional ["b"]])) c4wTplOk (.arr [.positional ["a"]])
    (fun _ => .arr [.positional ["b"]]) 1 2
    rfl (Or.inr (Or.inl (by decide)))
    (fun s d => nextPd_length10_some s d)
    rfl
    (fun _ _ => rfl)
    (fun _ _ => (by decide : rows_from_payload (Payload.arr [RawRow.positional ["b"]]) ≠ []))
    (fun _ _ => rfl)
    (fun _ _ => (by decide : fingerprint (rows_from_payload (Payload.arr [RawRow.positional ["b"]]))
      ≠ fingerprint (rows_from_payload (Payload.arr [RawRow.positional ["a"]]))))
    (fun _ j _ hj => absurd hj (by omega)) (Or.inr ⟨0, by omega, rfl⟩)
    (by omega)
  rw [heq]
  have hcomp : (out.rows, out.reason, out.sent.length)
      = (([RawRow.positional ["a"], RawRow.positional ["b"]] : List RawRow),
          StopReason.stall, 2) := by
    rw [hrows, hreason, hsent]
    decide
  simpa using hcomp

end Scraper
